import Mathlib

/-!
Verification of the event/token layer of a streaming XML tokenizer
(`src/events/mod.rs`).  Byte buffers are modelled as `List Nat` (each
element a byte value), Rust's `Cow<'a, [u8]>` as an explicit two-variant
ownership type, and every fallible operation as `Except`/`Option`.
External collaborators that are only declared in the provided source
(the attribute-scanning iterator of `events/attributes.rs` and the
escape/unescape codec of `escape.rs`) are modelled from the spec and
marked as such in their doc comments.
-/

set_option autoImplicit false

/-- Bytes of an ASCII string, as natural numbers (`Char.toNat` of each
character; all literals used in this development are 7-bit ASCII, where
this agrees with the UTF-8 bytes of the string). -/
def ascii (s : String) : List Nat := s.data.map Char.toNat

/-- The buffer-ownership primitive, Rust `Cow<'a, [u8]>`: either a view
into a caller-owned buffer or an independently owned byte buffer.  In
this value-level model a borrowed view carries the bytes it sees. -/
inductive Cow where
  | borrowed (bytes : List Nat)
  | owned (bytes : List Nat)
deriving DecidableEq, Repr

/-- The bytes a `Cow` dereferences to (`&*self`). -/
def Cow.asBytes : Cow → List Nat
  | .borrowed bs => bs
  | .owned bs => bs

/-- `Cow::into_owned`: the same bytes, in the `Owned` variant. -/
def Cow.into_owned (c : Cow) : Cow := .owned c.asBytes

/-- An attribute as yielded by the attribute-scanning iterator:
`Attribute { key: &[u8], value: Cow<[u8]> }`. -/
structure Attribute where
  key : List Nat
  value : List Nat
deriving DecidableEq, Repr

/-- `BytesStart<'a>`: `buf` holds the element content (name followed by
raw attribute spans), `name_len` is the end of the element name. -/
structure BytesStart where
  buf : Cow
  name_len : Nat
deriving DecidableEq, Repr

/-- `BytesStart::borrowed`. -/
def BytesStart.borrowed (content : List Nat) (name_len : Nat) : BytesStart :=
  { buf := .borrowed content, name_len := name_len }

/-- `BytesStart::owned`. -/
def BytesStart.owned (content : List Nat) (name_len : Nat) : BytesStart :=
  { buf := .owned content, name_len := name_len }

/-- `BytesStart::into_owned`. -/
def BytesStart.into_owned (s : BytesStart) : BytesStart :=
  { buf := .owned s.buf.asBytes, name_len := s.name_len }

/-- `BytesStart::name`: the slice `&self.buf[..self.name_len]`.  The Rust
slice indexes out of range when `name_len > buf.len()`; `List.take` is a
faithful model exactly when `name_len ≤ buf.len()` (the invariant proved
below), where both return the first `name_len` bytes. -/
def BytesStart.name (s : BytesStart) : List Nat :=
  (s.buf.asBytes).take s.name_len

/-- `memchr::memchr`: index of the first occurrence of `needle`. -/
def memchr (needle : Nat) : List Nat → Option Nat
  | [] => none
  | b :: rest => if b = needle then some 0 else (memchr needle rest).map (· + 1)

/-- `Iterator::position`: index of the first element satisfying `p`. -/
def position (p : Nat → Bool) : List Nat → Option Nat
  | [] => none
  | b :: rest => if p b then some 0 else (position p rest).map (· + 1)

/-- `BytesStart::local_name`: `memchr(b':', name).map_or(name, |i| &name[i + 1..])`.
Byte 58 is `:`. -/
def BytesStart.local_name (s : BytesStart) : List Nat :=
  match memchr 58 s.name with
  | none => s.name
  | some i => s.name.drop (i + 1)

/-- `BytesStart::push_attribute`: `to_mut` forces an owned copy of the
buffer, then a space (32), the key, `="` (61, 34), the value and a
closing `"` (34) are appended, in that order, with no escaping. -/
def BytesStart.push_attribute (s : BytesStart) (a : Attribute) : BytesStart :=
  { buf := .owned (((((s.buf.asBytes ++ [32]) ++ a.key) ++ [61, 34]) ++ a.value) ++ [34]),
    name_len := s.name_len }

/-- `BytesStart::extend_attributes`: one `push_attribute` per pair, in
iteration order. -/
def BytesStart.extend_attributes (s : BytesStart) (attrs : List Attribute) : BytesStart :=
  attrs.foldl BytesStart.push_attribute s

/-- `BytesStart::with_attributes`: delegates to `extend_attributes`. -/
def BytesStart.with_attributes (s : BytesStart) (attrs : List Attribute) : BytesStart :=
  s.extend_attributes attrs

/-- `BytesEnd<'a>`: just the tag name. -/
structure BytesEnd where
  name : Cow
deriving DecidableEq, Repr

/-- `BytesEnd::borrowed`. -/
def BytesEnd.borrowed (name : List Nat) : BytesEnd := { name := .borrowed name }

/-- `BytesEnd::owned`. -/
def BytesEnd.owned (name : List Nat) : BytesEnd := { name := .owned name }

/-- `BytesEnd::local_name`: the same namespace-stripping rule as
`BytesStart::local_name` but implemented with `iter().position(|b| *b == b':')`
instead of `memchr`. -/
def BytesEnd.local_name (e : BytesEnd) : List Nat :=
  match position (fun b => b == 58) e.name.asBytes with
  | some i => (e.name.asBytes).drop (i + 1)
  | none => e.name.asBytes

deriving instance DecidableEq for Except

/-- An error produced by the attribute-scanning iterator: malformed
`key=value` syntax, or an unterminated quote. -/
inductive ScanError where
  | malformed
  | unterminated
deriving DecidableEq, Repr

/-- `EscapeError`, carrying the byte offset of the offending `&` sequence:
either no terminating `;` before the end of the buffer, or an
unrecognized named/numeric entity. -/
inductive EscapeError where
  | malformed (offset : Nat)
  | unrecognized (offset : Nat)
deriving DecidableEq, Repr

/-- The crate `Error` type, restricted to the kinds this layer produces:
escape errors, UTF-8 conversion failure, a declaration whose first
attribute is not `version` (carrying the decoded key that was found, if
any), and attribute-scan errors. -/
inductive XmlError where
  | escapeError (e : EscapeError)
  | utf8
  | xmlDeclWithoutVersion (found : Option (List Nat))
  | attr (e : ScanError)
deriving DecidableEq, Repr

/-- Modelled from the spec: the external attribute-scanning iterator
(`events/attributes.rs`, declared but not part of the provided source),
strict mode.  It walks the raw attribute span: skips spaces (32), reads
a key up to `=` (61) or a space, requires `=` immediately followed by a
quoted (`"` 34 or `'` 39) value, and yields the value with its quotes
stripped; a missing `=`/quote yields one malformed-syntax error and an
unterminated quote yields one unterminated error, after which scanning
stops; scanning also stops at the end of the buffer.  `fuel` bounds the
recursion and is instantiated with the span length, which every step
strictly decreases. -/
def scanAttributes : Nat → List Nat → List (Except ScanError Attribute)
  | _, [] => []
  | 0, _ => [.error .malformed]
  | fuel + 1, l =>
    let l1 := l.dropWhile (fun b => b == 32)
    match l1.dropWhile (fun b => b != 61 && b != 32) with
    | 61 :: q :: r =>
      if q = 34 ∨ q = 39 then
        match r.dropWhile (fun b => b != q) with
        | _ :: r2 =>
          .ok ⟨l1.takeWhile (fun b => b != 61 && b != 32), r.takeWhile (fun b => b != q)⟩ ::
            scanAttributes fuel r2
        | [] => [.error .unterminated]
      else [.error .malformed]
    | _ :: _ => [.error .malformed]
    | [] => if l1.isEmpty then [] else [.error .malformed]

/-- `BytesStart::attributes`: scan the bytes after the name,
`[name_len, end)`, into key/value pairs. -/
def BytesStart.attributes (s : BytesStart) : List (Except ScanError Attribute) :=
  scanAttributes ((s.buf.asBytes).drop s.name_len).length ((s.buf.asBytes).drop s.name_len)

/-- `std::str::from_utf8`, as the list of decoded code points (`none` on
invalid UTF-8): rejects bare continuation bytes, overlong encodings,
surrogates and code points above `0x10FFFF`, exactly as Rust does. -/
def from_utf8 : List Nat → Option (List Nat)
  | [] => some []
  | b :: rest =>
    if b < 128 then (from_utf8 rest).map (b :: ·)
    else if b < 194 then none
    else if b < 224 then
      match rest with
      | c1 :: rest2 =>
        if 128 ≤ c1 ∧ c1 < 192 then
          (from_utf8 rest2).map (((b - 192) * 64 + (c1 - 128)) :: ·)
        else none
      | [] => none
    else if b < 240 then
      match rest with
      | c1 :: c2 :: rest3 =>
        if (128 ≤ c1 ∧ c1 < 192) ∧ (128 ≤ c2 ∧ c2 < 192) then
          let cp := (b - 224) * 4096 + (c1 - 128) * 64 + (c2 - 128)
          if 2048 ≤ cp ∧ ¬(55296 ≤ cp ∧ cp < 57344) then (from_utf8 rest3).map (cp :: ·)
          else none
        else none
      | _ => none
    else if b < 245 then
      match rest with
      | c1 :: c2 :: c3 :: rest4 =>
        if (128 ≤ c1 ∧ c1 < 192) ∧ (128 ≤ c2 ∧ c2 < 192) ∧ (128 ≤ c3 ∧ c3 < 192) then
          let cp := (b - 240) * 262144 + (c1 - 128) * 4096 + (c2 - 128) * 64 + (c3 - 128)
          if 65536 ≤ cp ∧ cp ≤ 1114111 then (from_utf8 rest4).map (cp :: ·)
          else none
        else none
      | _ => none
    else none

/-- `BytesDecl<'a>`: a declaration wraps a start tag whose name is
`xml` (`name_len = 3`). -/
structure BytesDecl where
  element : BytesStart
deriving DecidableEq, Repr

/-- `BytesDecl::from_start`. -/
def BytesDecl.from_start (start : BytesStart) : BytesDecl := { element := start }

/-- `BytesDecl::version`: looks at the first attribute only.  Yields the
value when its key is exactly `version`; otherwise decodes the found key
as UTF-8 (failing with `Error::Utf8` when it is not valid UTF-8) and
fails with `XmlDeclWithoutVersion(Some(found))`; with no attributes at
all, fails with `XmlDeclWithoutVersion(None)`; a scan error on the first
attribute is returned as is. -/
def BytesDecl.version (d : BytesDecl) : Except XmlError (List Nat) :=
  match d.element.attributes with
  | .error e :: _ => .error (.attr e)
  | .ok a :: _ =>
    if a.key = ascii "version" then .ok a.value
    else
      match from_utf8 a.key with
      | some found => .error (.xmlDeclWithoutVersion (some found))
      | none => .error .utf8
  | [] => .error (.xmlDeclWithoutVersion none)

/-- The attribute-search loop shared verbatim (up to the searched key) by
`BytesDecl::encoding` and `BytesDecl::standalone`: walk the attribute
sequence in order; a scan error stops the search and is returned, the
first attribute whose key matches yields its value, and exhausting the
sequence yields `none`. -/
def declFind (key : List Nat) : List (Except ScanError Attribute) →
    Option (Except XmlError (List Nat))
  | [] => none
  | .error e :: _ => some (.error (.attr e))
  | .ok a :: rest => if a.key = key then some (.ok a.value) else declFind key rest

/-- `BytesDecl::encoding`: linear scan of all attributes for the key
`encoding`. -/
def BytesDecl.encoding (d : BytesDecl) : Option (Except XmlError (List Nat)) :=
  declFind (ascii "encoding") d.element.attributes

/-- `BytesDecl::standalone`: linear scan of all attributes for the key
`standalone`. -/
def BytesDecl.standalone (d : BytesDecl) : Option (Except XmlError (List Nat)) :=
  declFind (ascii "standalone") d.element.attributes

/-- The capacity `BytesDecl::new` passes to `Vec::with_capacity`:
`14 + encoding_attr_len + standalone_attr_len`, where
`encoding_attr_len = 12 + len(encoding)` when an encoding is supplied
(else 0) and `standalone_attr_len = 14 + len(standalone)` when a
standalone value is supplied (else 0).  Note the formula does not
include the length of the version value. -/
def BytesDecl.newCapacity (encoding standalone : Option (List Nat)) : Nat :=
  14 + (match encoding with | some xs => 12 + xs.length | none => 0)
    + (match standalone with | some xs => 14 + xs.length | none => 0)

/-- `BytesDecl::new`: builds `xml version="V"` then, per present option,
`" encoding="E` and `" standalone="S`, then the final `"` (34), with no
escaping; wraps the buffer as an owned start tag with `name_len = 3`. -/
def BytesDecl.new (version : List Nat) (encoding standalone : Option (List Nat)) : BytesDecl :=
  let buf :=
    ((ascii "xml version=\"" ++ version)
      ++ (match encoding with
          | some encoding_val => ascii "\" encoding=\"" ++ encoding_val
          | none => []))
      ++ (match standalone with
          | some standalone_val => ascii "\" standalone=\"" ++ standalone_val
          | none => [])
      ++ [34]
  { element := BytesStart.owned buf 3 }

/-- Modelled from the spec: the escaping half of the external
escape/unescape codec (`escape.rs`, not part of the provided source),
per byte: `<` (60), `>` (62), `&` (38), `'` (39) and `"` (34) become
their entity references; every other byte is kept. -/
def escapeByte (b : Nat) : List Nat :=
  if b = 60 then ascii "&lt;"
  else if b = 62 then ascii "&gt;"
  else if b = 38 then ascii "&amp;"
  else if b = 39 then ascii "&apos;"
  else if b = 34 then ascii "&quot;"
  else [b]

/-- Modelled from the spec: `escape(bytes) -> bytes` entity-encodes
every occurrence of the five special characters. -/
def escape (s : List Nat) : List Nat := (s.map escapeByte).flatten

/-- The five named entities the codec recognizes. -/
def namedEntity (name : List Nat) : Option (List Nat) :=
  if name = ascii "lt" then some [60]
  else if name = ascii "gt" then some [62]
  else if name = ascii "amp" then some [38]
  else if name = ascii "apos" then some [39]
  else if name = ascii "quot" then some [34]
  else none

/-- A decimal digit byte, as its value. -/
def decDigit? (b : Nat) : Option Nat :=
  if 48 ≤ b ∧ b ≤ 57 then some (b - 48) else none

/-- A hexadecimal digit byte, as its value. -/
def hexDigit? (b : Nat) : Option Nat :=
  if 48 ≤ b ∧ b ≤ 57 then some (b - 48)
  else if 97 ≤ b ∧ b ≤ 102 then some (b - 87)
  else if 65 ≤ b ∧ b ≤ 70 then some (b - 55)
  else none

/-- A nonempty digit string, as a number in the given base. -/
def digitsNat? (digit? : Nat → Option Nat) (base : Nat) : List Nat → Option Nat
  | [] => none
  | ds => ds.foldlM (fun acc b => (digit? b).map (fun d => acc * base + d)) 0

/-- UTF-8 bytes of a code point (`none` for surrogates and values above
`0x10FFFF`). -/
def utf8Encode? (cp : Nat) : Option (List Nat) :=
  if cp < 128 then some [cp]
  else if cp < 2048 then some [192 + cp / 64, 128 + cp % 64]
  else if cp < 65536 then
    if 55296 ≤ cp ∧ cp < 57344 then none
    else some [224 + cp / 4096, 128 + (cp / 64) % 64, 128 + cp % 64]
  else if cp ≤ 1114111 then
    some [240 + cp / 262144, 128 + (cp / 4096) % 64, 128 + (cp / 64) % 64, 128 + cp % 64]
  else none

/-- The bytes an entity reference body (the part between `&` and `;`)
stands for: `#xH` (35, 120) hexadecimal and `#D` (35) decimal character
references, else one of the named entities. -/
def entityValue (name : List Nat) : Option (List Nat) :=
  match name with
  | 35 :: 120 :: ds => (digitsNat? hexDigit? 16 ds).bind utf8Encode?
  | 35 :: ds => (digitsNat? decDigit? 10 ds).bind utf8Encode?
  | _ => namedEntity name

/-- Modelled from the spec: the decoding half of the codec,
`unescape(bytes) -> Result<bytes, EscapeError>`, with `pos` the offset of
the head of the remaining input in the original buffer.  On `&` (38) it
reads the entity body up to the next `;` (59): no `;` before the end of
the buffer is a malformed error at the offset of the `&`, an entity body
that resolves to nothing is an unrecognized-entity error there, and
otherwise the entity's bytes are emitted and scanning resumes after the
`;`.  All other bytes pass through unchanged. -/
def unescapeFrom (pos : Nat) : List Nat → Except EscapeError (List Nat)
  | [] => .ok []
  | b :: rest =>
    if b = 38 then
      let name := rest.takeWhile (fun x => x != 59)
      let after := rest.dropWhile (fun x => x != 59)
      if _h : after.isEmpty then .error (.malformed pos)
      else
        match entityValue name with
        | some bs => (unescapeFrom (pos + name.length + 2) after.tail).map (fun r => bs ++ r)
        | none => .error (.unrecognized pos)
    else (unescapeFrom (pos + 1) rest).map (fun r => b :: r)
termination_by l => l.length
decreasing_by
  · have hle : ∀ l : List Nat, (l.dropWhile (fun x => x != 59)).length ≤ l.length := by
      intro l
      induction l with
      | nil => simp [List.dropWhile]
      | cons b t ih =>
        rw [List.dropWhile_cons]
        split
        · exact Nat.le_succ_of_le ih
        · exact Nat.le_refl _
    have := hle rest
    simp only [List.length_tail, List.length_cons]
    omega
  · simp

/-- Modelled from the spec: `unescape` starts at offset 0. -/
def unescape (s : List Nat) : Except EscapeError (List Nat) := unescapeFrom 0 s

/-- `BytesText<'a>`: raw (already escaped) content bytes. -/
structure BytesText where
  content : Cow
deriving DecidableEq, Repr

/-- `BytesText::borrowed`. -/
def BytesText.borrowed (content : List Nat) : BytesText := { content := .borrowed content }

/-- `BytesText::owned`. -/
def BytesText.owned (content : List Nat) : BytesText := { content := .owned content }

/-- `BytesText::from_str`: escapes the text on the way in and owns the
result. -/
def BytesText.from_str (text : List Nat) : BytesText := { content := .owned (escape text) }

/-- `BytesText::escaped`: the stored bytes, with no further processing. -/
def BytesText.escaped (t : BytesText) : List Nat := t.content.asBytes

/-- `BytesText::unescaped`: `unescape(self).map_err(Error::EscapeError)`. -/
def BytesText.unescaped (t : BytesText) : Except XmlError (List Nat) :=
  (unescape t.content.asBytes).mapError .escapeError

/-- `BytesStart::unescaped`: same contract on a start tag's buffer. -/
def BytesStart.unescaped (s : BytesStart) : Except XmlError (List Nat) :=
  (unescape s.buf.asBytes).mapError .escapeError

/-- The event tagged union emitted by the scanner. -/
inductive Event where
  | Start (e : BytesStart)
  | End (e : BytesEnd)
  | Empty (e : BytesStart)
  | Text (e : BytesText)
  | Comment (e : BytesText)
  | CData (e : BytesText)
  | Decl (e : BytesDecl)
  | PI (e : BytesText)
  | DocType (e : BytesText)
  | Eof
deriving DecidableEq, Repr

/-!
A second, heap-explicit view of the ownership primitive, used to state
the frame property of copy-on-write: the caller-owned input buffers live
in an explicit heap of buffers and a borrowed cow names the slot it
views, so "the operation did not write the shared buffer" is the
statement that the heap component comes back unchanged.  Each operation
is translated from the same source function as its value-level
counterpart above, here with the heap threaded through explicitly.
-/

/-- The caller-owned buffers a borrowed token can view. -/
def Heap : Type := List (List Nat)

/-- `Cow<'a, [u8]>` with aliasing explicit: `borrowed i` views heap slot
`i`; `owned` is the token's private buffer. -/
inductive HCow where
  | borrowed (i : Nat)
  | owned (bytes : List Nat)
deriving DecidableEq, Repr

/-- Dereferencing a cow under a heap. -/
def HCow.read (h : Heap) : HCow → List Nat
  | .borrowed i => h.getD i []
  | .owned bs => bs

/-- `Cow::to_mut`: hands out an owned buffer for mutation, cloning the
viewed bytes first when the cow is borrowed (copy-on-write); the heap is
returned alongside to record that the shared buffer is not touched. -/
def HCow.to_mut (c : HCow) (h : Heap) : Heap × List Nat :=
  (h, c.read h)

/-- `BytesStart` over the heap-explicit cow. -/
structure HBytesStart where
  buf : HCow
  name_len : Nat
deriving DecidableEq, Repr

/-- `BytesStart::into_owned`, heap-explicit: one clone of the viewed
bytes into a private buffer. -/
def HBytesStart.into_owned (s : HBytesStart) (h : Heap) : Heap × HBytesStart :=
  (h, { buf := .owned (s.buf.read h), name_len := s.name_len })

/-- `BytesStart::push_attribute`, heap-explicit: `to_mut`, then the
` key="value"` bytes are appended to the private buffer. -/
def HBytesStart.push_attribute (s : HBytesStart) (a : Attribute) (h : Heap) :
    Heap × HBytesStart :=
  let hb := s.buf.to_mut h
  (hb.1,
    { buf := .owned (((((hb.2 ++ [32]) ++ a.key) ++ [61, 34]) ++ a.value) ++ [34]),
      name_len := s.name_len })

/-- An element of an attribute scan that the `encoding`/`standalone`
search loop skips: a successfully scanned attribute whose key differs
from `k`. -/
def notKeyed (k : List Nat) : Except ScanError Attribute → Bool
  | .ok a => a.key != k
  | .error _ => false

/-- Whether a `version()` result is an `XmlDeclWithoutVersion` failure. -/
def isXmlDeclWithoutVersion : Except XmlError (List Nat) → Bool
  | .error (.xmlDeclWithoutVersion _) => true
  | _ => false

/-- One ` key="value"` declaration clause of the canonical wire format:
a space, the key, `="`, the value, the closing double quote. -/
def declClause (key : String) (v : List Nat) : List Nat :=
  [32] ++ ascii key ++ [61, 34] ++ v ++ [34]

/-! Helper lemmas. -/

theorem takeWhile_append_stop (p : Nat → Bool) (l : List Nat) (a : Nat) (t : List Nat)
    (hl : ∀ x ∈ l, p x = true) (ha : p a = false) :
    (l ++ a :: t).takeWhile p = l := by
  induction l with
  | nil => simp [List.takeWhile_cons, ha]
  | cons b r ih => simp_all [List.takeWhile_cons]

theorem dropWhile_append_stop (p : Nat → Bool) (l : List Nat) (a : Nat) (t : List Nat)
    (hl : ∀ x ∈ l, p x = true) (ha : p a = false) :
    (l ++ a :: t).dropWhile p = a :: t := by
  induction l with
  | nil => simp [List.dropWhile_cons, ha]
  | cons b r ih => simp_all [List.dropWhile_cons]

theorem unescapeFrom_nil (pos : Nat) : unescapeFrom pos [] = .ok [] := by
  simp [unescapeFrom]

theorem unescapeFrom_cons_ne (pos b : Nat) (rest : List Nat) (hb : b ≠ 38) :
    unescapeFrom pos (b :: rest) = (unescapeFrom (pos + 1) rest).map (fun r => b :: r) := by
  rw [unescapeFrom]
  simp [hb]

theorem unescapeFrom_entity (pos : Nat) (name bs t : List Nat)
    (hname : ∀ x ∈ name, (x != 59) = true) (hent : entityValue name = some bs) :
    unescapeFrom pos (38 :: (name ++ 59 :: t)) =
      (unescapeFrom (pos + name.length + 2) t).map (fun r => bs ++ r) := by
  rw [unescapeFrom]
  rw [takeWhile_append_stop _ _ _ _ hname (by simp),
    dropWhile_append_stop _ _ _ _ hname (by simp)]
  simp [hent]

theorem unescapeFrom_escapeByte (pos b : Nat) (rest : List Nat) :
    unescapeFrom pos (escapeByte b ++ rest) =
      (unescapeFrom (pos + (escapeByte b).length) rest).map (fun r => b :: r) := by
  by_cases h60 : b = 60
  · subst h60
    rw [(by decide : escapeByte 60 = 38 :: ([108, 116] ++ [59]))]
    rw [(by simp : (38 :: ([108, 116] ++ [59])) ++ rest = 38 :: ([108, 116] ++ 59 :: rest))]
    rw [unescapeFrom_entity pos [108, 116] [60] rest (by decide) (by decide)]
    rfl
  by_cases h62 : b = 62
  · subst h62
    rw [(by decide : escapeByte 62 = 38 :: ([103, 116] ++ [59]))]
    rw [(by simp : (38 :: ([103, 116] ++ [59])) ++ rest = 38 :: ([103, 116] ++ 59 :: rest))]
    rw [unescapeFrom_entity pos [103, 116] [62] rest (by decide) (by decide)]
    rfl
  by_cases h38 : b = 38
  · subst h38
    rw [(by decide : escapeByte 38 = 38 :: ([97, 109, 112] ++ [59]))]
    rw [(by simp :
      (38 :: ([97, 109, 112] ++ [59])) ++ rest = 38 :: ([97, 109, 112] ++ 59 :: rest))]
    rw [unescapeFrom_entity pos [97, 109, 112] [38] rest (by decide) (by decide)]
    rfl
  by_cases h39 : b = 39
  · subst h39
    rw [(by decide : escapeByte 39 = 38 :: ([97, 112, 111, 115] ++ [59]))]
    rw [(by simp :
      (38 :: ([97, 112, 111, 115] ++ [59])) ++ rest = 38 :: ([97, 112, 111, 115] ++ 59 :: rest))]
    rw [unescapeFrom_entity pos [97, 112, 111, 115] [39] rest (by decide) (by decide)]
    rfl
  by_cases h34 : b = 34
  · subst h34
    rw [(by decide : escapeByte 34 = 38 :: ([113, 117, 111, 116] ++ [59]))]
    rw [(by simp :
      (38 :: ([113, 117, 111, 116] ++ [59])) ++ rest = 38 :: ([113, 117, 111, 116] ++ 59 :: rest))]
    rw [unescapeFrom_entity pos [113, 117, 111, 116] [34] rest (by decide) (by decide)]
    rfl
  · rw [(by simp [escapeByte, h60, h62, h38, h39, h34] : escapeByte b = [b])]
    rw [(by simp : [b] ++ rest = b :: rest)]
    rw [unescapeFrom_cons_ne pos b rest h38]
    rfl

theorem escape_cons (b : Nat) (t : List Nat) : escape (b :: t) = escapeByte b ++ escape t := by
  simp [escape]

theorem unescapeFrom_escape (s : List Nat) : ∀ pos, unescapeFrom pos (escape s) = .ok s := by
  induction s with
  | nil => intro pos; simp [escape, unescapeFrom_nil]
  | cons b t ih =>
    intro pos
    rw [escape_cons, unescapeFrom_escapeByte, ih]
    rfl

theorem unescape_escape (s : List Nat) : unescape (escape s) = .ok s :=
  unescapeFrom_escape s 0

theorem memchr_eq_none_iff (c : Nat) (l : List Nat) : memchr c l = none ↔ c ∉ l := by
  induction l with
  | nil => simp [memchr]
  | cons b t ih =>
    by_cases hb : b = c
    · subst hb; simp [memchr]
    · simp [memchr, hb, ih, Ne.symm hb]

theorem memchr_eq_some_iff (c : Nat) (l : List Nat) (i : Nat) :
    memchr c l = some i ↔
      i < l.length ∧ l.getD i 0 = c ∧ ∀ j, j < i → l.getD j 0 ≠ c := by
  induction l generalizing i with
  | nil => simp [memchr]
  | cons b t ih =>
    by_cases hb : b = c
    · subst hb
      simp only [memchr, if_pos rfl]
      constructor
      · intro h
        obtain rfl : (0 : Nat) = i := by simpa using h
        refine ⟨Nat.succ_pos _, rfl, ?_⟩
        intro j hj
        omega
      · rintro ⟨hi, hg, hj⟩
        cases i with
        | zero => rfl
        | succ i => exact absurd rfl (hj 0 (Nat.succ_pos _))
    · simp only [memchr, if_neg hb]
      cases i with
      | zero =>
        constructor
        · intro h
          rcases hmt : memchr c t with _ | k <;> rw [hmt] at h <;> simp at h
        · rintro ⟨hi, hg, hj⟩
          exact absurd hg hb
      | succ i =>
        constructor
        · intro h
          have hk : memchr c t = some i := by
            rcases hmt : memchr c t with _ | k <;> rw [hmt] at h <;> simp at h
            rw [h]
          obtain ⟨h1, h2, h3⟩ := (ih i).mp hk
          refine ⟨by simp; omega, by simpa using h2, ?_⟩
          intro j hj
          cases j with
          | zero => simpa using hb
          | succ j => simpa using h3 j (by omega)
        · rintro ⟨h1, h2, h3⟩
          have ht : memchr c t = some i := by
            refine (ih i).mpr ⟨by simp at h1; omega, by simpa using h2, ?_⟩
            intro j hj
            simpa using h3 (j + 1) (by omega)
          rw [ht]
          rfl

theorem position_beq_eq_memchr (c : Nat) (l : List Nat) :
    position (fun b => b == c) l = memchr c l := by
  induction l with
  | nil => rfl
  | cons b t ih => by_cases hb : b = c <;> simp [position, memchr, hb, ih]

theorem declFind_skip (key : List Nat) (l1 l2 : List (Except ScanError Attribute))
    (h : ∀ x ∈ l1, notKeyed key x = true) :
    declFind key (l1 ++ l2) = declFind key l2 := by
  induction l1 with
  | nil => rfl
  | cons x r ih =>
    cases x with
    | error e =>
      have := h (.error e) (by simp)
      simp [notKeyed] at this
    | ok a =>
      have hk := h (.ok a) (by simp)
      simp [notKeyed] at hk
      simp only [List.cons_append, declFind, if_neg hk]
      exact ih (fun x hx => h x (by simp [hx]))

theorem declFind_none (key : List Nat) (l : List (Except ScanError Attribute))
    (h : ∀ x ∈ l, notKeyed key x = true) : declFind key l = none := by
  have := declFind_skip key l [] h
  simpa using this

theorem extend_attributes_cons (a : Attribute) (r : List Attribute) (s : BytesStart) :
    s.extend_attributes (a :: r) = (s.push_attribute a).extend_attributes r := rfl

theorem extend_attributes_name_len (ps : List Attribute) (s : BytesStart) :
    (s.extend_attributes ps).name_len = s.name_len := by
  induction ps generalizing s with
  | nil => rfl
  | cons a r ih =>
    rw [extend_attributes_cons, ih]
    rfl

theorem extend_attributes_bytes (ps : List Attribute) (s : BytesStart) :
    (s.extend_attributes ps).buf.asBytes =
      s.buf.asBytes ++ (ps.map (fun a => [32] ++ a.key ++ [61, 34] ++ a.value ++ [34])).flatten := by
  induction ps generalizing s with
  | nil => simp [BytesStart.extend_attributes]
  | cons a r ih =>
    rw [extend_attributes_cons, ih]
    simp [BytesStart.push_attribute, Cow.asBytes]

/-! The claims. -/

/-- Claim C1: the capacity computed by `BytesDecl::new` before writing is
`14`, plus `12 + len(encoding)` when an encoding is present, plus
`14 + len(standalone)` when a standalone value is present — and this
does NOT equal the final buffer length: the formula omits the version
bytes, so already for version `1.0` with no optional fields the reserved
capacity is 14 while the produced buffer (`xml version="1.0"`) is 17
bytes; in general the final length exceeds the reserved capacity by
exactly `version.length`, so the buffer must grow during construction
whenever the version is nonempty. -/
theorem c1_capacity_omits_version :
    BytesDecl.newCapacity none none = 14 ∧
    ((BytesDecl.new (ascii "1.0") none none).element.buf.asBytes).length = 17 ∧
    ∀ v e st, ((BytesDecl.new v e st).element.buf.asBytes).length =
      BytesDecl.newCapacity e st + v.length := by
  refine ⟨rfl, by decide, ?_⟩
  intro v e st
  have h13 : (ascii "xml version=\"").length = 13 := by decide
  have h12 : (ascii "\" encoding=\"").length = 12 := by decide
  have h14 : (ascii "\" standalone=\"").length = 14 := by decide
  rcases e with _ | ev <;> rcases st with _ | sv <;>
    simp [BytesDecl.new, BytesDecl.newCapacity, BytesStart.owned, Cow.asBytes,
      h13, h12, h14] <;>
    omega

/-- Claim C2: `new("1.0", Some("UTF-8"), None)` produces exactly the
bytes `xml version="1.0" encoding="UTF-8"` and
`new("1.0", None, Some("yes"))` produces exactly
`xml version="1.0" standalone="yes"`; in general the produced buffer is
`xml` followed by double-quote-delimited clauses in the fixed order
version, encoding, standalone, absent optional fields omitted entirely,
with `name_len = 3` so the wrapped tag name is `xml`. -/
theorem c2_decl_wire_format :
    (BytesDecl.new (ascii "1.0") (some (ascii "UTF-8")) none).element.buf.asBytes =
      ascii "xml version=\"1.0\" encoding=\"UTF-8\"" ∧
    (BytesDecl.new (ascii "1.0") none (some (ascii "yes"))).element.buf.asBytes =
      ascii "xml version=\"1.0\" standalone=\"yes\"" ∧
    ∀ v e st,
      (BytesDecl.new v e st).element.buf.asBytes =
        ascii "xml" ++ declClause "version" v
          ++ (match e with | some x => declClause "encoding" x | none => [])
          ++ (match st with | some x => declClause "standalone" x | none => []) ∧
      (BytesDecl.new v e st).element.name_len = 3 ∧
      (BytesDecl.new v e st).element.name = ascii "xml" := by
  refine ⟨by decide, by decide, ?_⟩
  intro v e st
  have hA : ascii "xml version=\"" = ascii "xml" ++ ([32] ++ ascii "version" ++ [61, 34]) := by
    decide
  have hB : ascii "\" encoding=\"" = [34] ++ ([32] ++ ascii "encoding" ++ [61, 34]) := by
    decide
  have hC : ascii "\" standalone=\"" = [34] ++ ([32] ++ ascii "standalone" ++ [61, 34]) := by
    decide
  refine ⟨?_, rfl, ?_⟩
  · rcases e with _ | ev <;> rcases st with _ | sv <;>
      simp [BytesDecl.new, declClause, BytesStart.owned, Cow.asBytes, hA, hB, hC]
  · have h3 : ∀ r : List Nat, ((ascii "xml version=\"" ++ r).take 3) = ascii "xml" :=
      fun r => rfl
    show ((BytesDecl.new v e st).element.buf.asBytes).take 3 = ascii "xml"
    rcases e with _ | ev <;> rcases st with _ | sv <;>
      simp only [BytesDecl.new, BytesStart.owned, Cow.asBytes, List.append_assoc] <;>
      exact h3 _

/-- Claim C3, counterexample: a declaration whose first attribute has the
single byte 255 (not valid UTF-8) as its key.  The claim says any
non-`version` first key fails with `XmlDeclWithoutVersion` carrying the
found key; the code instead fails with a `Utf8` error, because it
decodes the found key as UTF-8 before wrapping it. -/
theorem c3_counterexample :
    (BytesDecl.from_start
        (BytesStart.owned (ascii "xml " ++ [255] ++ ascii "=\"1.0\"") 3)).element.attributes =
      [.ok ⟨[255], ascii "1.0"⟩] ∧
    (BytesDecl.from_start
        (BytesStart.owned (ascii "xml " ++ [255] ++ ascii "=\"1.0\"") 3)).version =
      .error .utf8 ∧
    isXmlDeclWithoutVersion
        (BytesDecl.from_start
          (BytesStart.owned (ascii "xml " ++ [255] ++ ascii "=\"1.0\"") 3)).version = false := by
  refine ⟨by decide, by decide, by decide⟩

/-- Claim C3 (amended): `version()` inspects only the first attribute.
It returns that attribute's value when its key is exactly `version`;
when the first attribute has any other key it fails with
`XmlDeclWithoutVersion` carrying that key if the key is valid UTF-8 and
with a `Utf8` error otherwise; with zero attributes it fails with
`XmlDeclWithoutVersion(None)`; a scan error on the first attribute is
propagated.  A declaration whose first attribute is `encoding="UTF-8"`
is rejected with `XmlDeclWithoutVersion(Some "encoding")`. -/
theorem c3_version_first_attribute_only (d : BytesDecl) :
    (d.element.attributes = [] → d.version = .error (.xmlDeclWithoutVersion none)) ∧
    (∀ e tl, d.element.attributes = .error e :: tl → d.version = .error (.attr e)) ∧
    (∀ a tl, d.element.attributes = .ok a :: tl → a.key = ascii "version" →
      d.version = .ok a.value) ∧
    (∀ a tl found, d.element.attributes = .ok a :: tl → a.key ≠ ascii "version" →
      from_utf8 a.key = some found →
      d.version = .error (.xmlDeclWithoutVersion (some found))) ∧
    (∀ a tl, d.element.attributes = .ok a :: tl → a.key ≠ ascii "version" →
      from_utf8 a.key = none → d.version = .error .utf8) ∧
    (BytesDecl.from_start (BytesStart.owned (ascii "xml encoding=\"UTF-8\"") 3)).version =
      .error (.xmlDeclWithoutVersion (some (ascii "encoding"))) := by
  refine ⟨?_, ?_, ?_, ?_, ?_, by decide⟩
  · intro h
    unfold BytesDecl.version
    rw [h]
  · intro e tl h
    unfold BytesDecl.version
    rw [h]
  · intro a tl h hk
    unfold BytesDecl.version
    rw [h]
    simp [hk]
  · intro a tl found h hk hd
    unfold BytesDecl.version
    rw [h]
    simp [hk, hd]
  · intro a tl h hk hd
    unfold BytesDecl.version
    rw [h]
    simp [hk, hd]

/-- Witness for C3: on `BytesDecl::new("1.0", None, None)` the first
scanned attribute is `version="1.0"`, so `version()` yields `1.0`. -/
theorem c3_version_first_attribute_only_witness :
    (BytesDecl.new (ascii "1.0") none none).version = .ok (ascii "1.0") :=
  (c3_version_first_attribute_only (BytesDecl.new (ascii "1.0") none none)).2.2.1
    ⟨ascii "version", ascii "1.0"⟩ [] (by decide) (by decide)

/-- Claim C4: for start tags and end tags alike, a name with no `:`
(byte 58) is its own local name; otherwise the local name is the slice
strictly after the first `:`, so `foo:bus:baz` yields `bus:baz`
(retaining the second colon) and a trailing-colon name yields the empty
local name. -/
theorem c4_local_name_first_colon_rule (s : BytesStart) (e : BytesEnd) :
    (58 ∉ s.name → s.local_name = s.name) ∧
    (∀ i, i < s.name.length → s.name.getD i 0 = 58 →
      (∀ j, j < i → s.name.getD j 0 ≠ 58) → s.local_name = s.name.drop (i + 1)) ∧
    (58 ∉ e.name.asBytes → e.local_name = e.name.asBytes) ∧
    (∀ i, i < e.name.asBytes.length → e.name.asBytes.getD i 0 = 58 →
      (∀ j, j < i → e.name.asBytes.getD j 0 ≠ 58) →
      e.local_name = e.name.asBytes.drop (i + 1)) ∧
    (BytesStart.owned (ascii "foo:bus:baz") 11).local_name = ascii "bus:baz" ∧
    (BytesEnd.owned (ascii "foo:bus:baz")).local_name = ascii "bus:baz" ∧
    (BytesStart.owned (ascii "foo:") 4).local_name = [] ∧
    (BytesEnd.owned (ascii "foo:")).local_name = [] := by
  refine ⟨?_, ?_, ?_, ?_, by decide, by decide, by decide, by decide⟩
  · intro hn
    unfold BytesStart.local_name
    rw [(memchr_eq_none_iff 58 s.name).mpr hn]
  · intro i h1 h2 h3
    unfold BytesStart.local_name
    rw [(memchr_eq_some_iff 58 s.name i).mpr ⟨h1, h2, h3⟩]
  · intro hn
    unfold BytesEnd.local_name
    rw [position_beq_eq_memchr, (memchr_eq_none_iff 58 _).mpr hn]
  · intro i h1 h2 h3
    unfold BytesEnd.local_name
    rw [position_beq_eq_memchr, (memchr_eq_some_iff 58 _ i).mpr ⟨h1, h2, h3⟩]

/-- Witness for C4: `abc` has no colon and is its own local name; `a:b`
has its first colon at index 1 and local name `b`. -/
theorem c4_local_name_first_colon_rule_witness :
    (BytesStart.owned (ascii "abc") 3).local_name = (BytesStart.owned (ascii "abc") 3).name ∧
    (BytesEnd.owned (ascii "a:b")).local_name = (ascii "a:b").drop 2 :=
  ⟨(c4_local_name_first_colon_rule (BytesStart.owned (ascii "abc") 3)
      (BytesEnd.owned (ascii "a:b"))).1 (by decide),
   (c4_local_name_first_colon_rule (BytesStart.owned (ascii "abc") 3)
      (BytesEnd.owned (ascii "a:b"))).2.2.2.1 1 (by decide) (by decide)
      (by decide)⟩

/-- Claim C5: `push_attribute` appends exactly one space, the key, `="`,
the value and `"` to the buffer end, with no escaping of the value; two
pushes with the same key leave both occurrences present in call order;
`extend_attributes` pushes once per pair in iteration order, and
`with_attributes` delegates to it, so attribute order in the buffer
equals input order. -/
theorem c5_push_attribute_appends (s : BytesStart) (a b : Attribute) (ps : List Attribute) :
    (s.push_attribute a).buf.asBytes =
      s.buf.asBytes ++ ([32] ++ a.key ++ [61, 34] ++ a.value ++ [34]) ∧
    ((s.push_attribute a).push_attribute b).buf.asBytes =
      s.buf.asBytes ++ ([32] ++ a.key ++ [61, 34] ++ a.value ++ [34])
        ++ ([32] ++ b.key ++ [61, 34] ++ b.value ++ [34]) ∧
    (s.extend_attributes ps).buf.asBytes =
      s.buf.asBytes ++ (ps.map (fun x => [32] ++ x.key ++ [61, 34] ++ x.value ++ [34])).flatten ∧
    s.with_attributes ps = s.extend_attributes ps := by
  refine ⟨?_, ?_, extend_attributes_bytes ps s, rfl⟩
  · simp [BytesStart.push_attribute, Cow.asBytes]
  · simp [BytesStart.push_attribute, Cow.asBytes]

/-- Claim C6: `encoding()` walks the attribute sequence in order and
returns `None` when every element is a successfully scanned attribute
with a different key, `Some(Ok(value))` for the first attribute keyed
`encoding` when nothing before it matches or fails, and `Some(Err(..))`
when a scan error occurs before any match; `standalone()` behaves
identically for the key `standalone`. -/
theorem c6_encoding_standalone_scan (d : BytesDecl) :
    ((∀ x ∈ d.element.attributes, notKeyed (ascii "encoding") x = true) →
      d.encoding = none) ∧
    (∀ l1 a l2, d.element.attributes = l1 ++ .ok a :: l2 → a.key = ascii "encoding" →
      (∀ x ∈ l1, notKeyed (ascii "encoding") x = true) →
      d.encoding = some (.ok a.value)) ∧
    (∀ l1 e l2, d.element.attributes = l1 ++ .error e :: l2 →
      (∀ x ∈ l1, notKeyed (ascii "encoding") x = true) →
      d.encoding = some (.error (.attr e))) ∧
    ((∀ x ∈ d.element.attributes, notKeyed (ascii "standalone") x = true) →
      d.standalone = none) ∧
    (∀ l1 a l2, d.element.attributes = l1 ++ .ok a :: l2 → a.key = ascii "standalone" →
      (∀ x ∈ l1, notKeyed (ascii "standalone") x = true) →
      d.standalone = some (.ok a.value)) ∧
    (∀ l1 e l2, d.element.attributes = l1 ++ .error e :: l2 →
      (∀ x ∈ l1, notKeyed (ascii "standalone") x = true) →
      d.standalone = some (.error (.attr e))) := by
  refine ⟨?_, ?_, ?_, ?_, ?_, ?_⟩
  · intro h
    exact declFind_none _ _ h
  · intro l1 a l2 h hk h1
    unfold BytesDecl.encoding
    rw [h, declFind_skip _ _ _ h1]
    simp [declFind, hk]
  · intro l1 e l2 h h1
    unfold BytesDecl.encoding
    rw [h, declFind_skip _ _ _ h1]
    rfl
  · intro h
    exact declFind_none _ _ h
  · intro l1 a l2 h hk h1
    unfold BytesDecl.standalone
    rw [h, declFind_skip _ _ _ h1]
    simp [declFind, hk]
  · intro l1 e l2 h h1
    unfold BytesDecl.standalone
    rw [h, declFind_skip _ _ _ h1]
    rfl

/-- Witness for C6: on `BytesDecl::new("1.0", Some("UTF-8"), None)` the
attributes scan as `version="1.0"` then `encoding="UTF-8"`, so the
search skips the first and yields the encoding value. -/
theorem c6_encoding_standalone_scan_witness :
    (BytesDecl.new (ascii "1.0") (some (ascii "UTF-8")) none).encoding =
      some (.ok (ascii "UTF-8")) :=
  (c6_encoding_standalone_scan (BytesDecl.new (ascii "1.0") (some (ascii "UTF-8")) none)).2.1
    [.ok ⟨ascii "version", ascii "1.0"⟩] ⟨ascii "encoding", ascii "UTF-8"⟩ []
    (by decide) (by decide) (by decide)

/-- Claim C7: constructing a text token from a plain string escapes on
the way in, `escaped()` returns the stored bytes with no further
processing, and `unescaped()` recovers exactly the original bytes: the
escape/unescape round trip is the identity for every byte string, in
particular any combination of `<`, `>`, `&`, the single quote and the
double quote. -/
theorem c7_from_str_roundtrip (s : List Nat) :
    (BytesText.from_str s).escaped = escape s ∧
    (BytesText.from_str s).unescaped = .ok s := by
  refine ⟨rfl, ?_⟩
  show (unescape (escape s)).mapError XmlError.escapeError = .ok s
  rw [unescape_escape]
  rfl

/-- Claim C8: converting a borrowed token to owned and then mutating it
with `push_attribute` leaves every caller-owned buffer in the heap
untouched, and mutating a borrowed token directly also leaves the heap
untouched because `to_mut` copies the viewed bytes into a private owned
buffer first (copy-on-write); the mutations land in the private copy. -/
theorem c8_copy_on_write (h : Heap) (s : HBytesStart) (a : Attribute) (i : Nat)
    (hb : s.buf = .borrowed i) :
    (s.into_owned h).1 = h ∧
    (s.into_owned h).2.buf = .owned (h.getD i []) ∧
    ((s.into_owned h).2.push_attribute a (s.into_owned h).1).1 = h ∧
    ((s.into_owned h).2.push_attribute a (s.into_owned h).1).2.buf =
      .owned (((((h.getD i [] ++ [32]) ++ a.key) ++ [61, 34]) ++ a.value) ++ [34]) ∧
    (s.push_attribute a h).1 = h ∧
    (s.push_attribute a h).2.buf =
      .owned (((((h.getD i [] ++ [32]) ++ a.key) ++ [61, 34]) ++ a.value) ++ [34]) := by
  obtain ⟨buf, n⟩ := s
  simp only at hb
  subst hb
  exact ⟨rfl, rfl, rfl, rfl, rfl, rfl⟩

/-- Witness for C8: one concrete heap with one caller buffer `ab`, a
token borrowing it, and one push. -/
theorem c8_copy_on_write_witness :
    ((⟨.borrowed 0, 2⟩ : HBytesStart).push_attribute ⟨[107], [118]⟩ [[97, 98]]).1 =
      [[97, 98]] ∧
    ((⟨.borrowed 0, 2⟩ : HBytesStart).push_attribute ⟨[107], [118]⟩ [[97, 98]]).2.buf =
      .owned ((((([97, 98] ++ [32]) ++ [107]) ++ [61, 34]) ++ [118]) ++ [34]) :=
  ⟨(c8_copy_on_write [[97, 98]] ⟨.borrowed 0, 2⟩ ⟨[107], [118]⟩ 0 rfl).2.2.2.2.1,
   (c8_copy_on_write [[97, 98]] ⟨.borrowed 0, 2⟩ ⟨[107], [118]⟩ 0 rfl).2.2.2.2.2⟩

/-- Claim C9: when a start tag satisfies `name_len ≤ length(buffer)`,
every operation (`into_owned`, `push_attribute`, `extend_attributes`,
`with_attributes`) preserves that invariant, and under it `name()` is
exactly the first `name_len` bytes of the buffer (in particular it has
exactly `name_len` bytes, so the slice is in range). -/
theorem c9_name_len_invariant (s : BytesStart) (a : Attribute) (ps : List Attribute)
    (hinv : s.name_len ≤ s.buf.asBytes.length) :
    s.into_owned.name_len ≤ s.into_owned.buf.asBytes.length ∧
    (s.push_attribute a).name_len ≤ (s.push_attribute a).buf.asBytes.length ∧
    (s.extend_attributes ps).name_len ≤ (s.extend_attributes ps).buf.asBytes.length ∧
    (s.with_attributes ps).name_len ≤ (s.with_attributes ps).buf.asBytes.length ∧
    s.name.length = s.name_len ∧
    s.name = (s.buf.asBytes).take s.name_len := by
  have hext : (s.extend_attributes ps).name_len ≤ (s.extend_attributes ps).buf.asBytes.length := by
    rw [extend_attributes_name_len, extend_attributes_bytes, List.length_append]
    omega
  refine ⟨hinv, ?_, hext, hext, ?_, rfl⟩
  · show s.name_len ≤
      (((((s.buf.asBytes ++ [32]) ++ a.key) ++ [61, 34]) ++ a.value) ++ [34]).length
    simp only [List.length_append]
    omega
  · show ((s.buf.asBytes).take s.name_len).length = s.name_len
    rw [List.length_take]
    omega

/-- Witness for C9: the invariant holds for an owned `tag` start token
and is preserved by a push. -/
theorem c9_name_len_invariant_witness :
    ((BytesStart.owned (ascii "tag") 3).push_attribute ⟨[107], [118]⟩).name_len ≤
      ((BytesStart.owned (ascii "tag") 3).push_attribute ⟨[107], [118]⟩).buf.asBytes.length :=
  (c9_name_len_invariant (BytesStart.owned (ascii "tag") 3) ⟨[107], [118]⟩ []
    (by decide)).2.1

/-- Claim C10: the `memchr`-based `BytesStart::local_name` and the
`position`-based `BytesEnd::local_name` compute the same function: on
any pair of tokens carrying the same name bytes they return identical
slices. -/
theorem c10_local_name_implementations_agree (s : BytesStart) (e : BytesEnd)
    (h : s.name = e.name.asBytes) :
    s.local_name = e.local_name := by
  unfold BytesStart.local_name BytesEnd.local_name
  rw [position_beq_eq_memchr, ← h]
  cases memchr 58 s.name <;> rfl

/-- Witness for C10: both implementations send `foo:bus:baz` to the same
local name. -/
theorem c10_local_name_implementations_agree_witness :
    (BytesStart.owned (ascii "foo:bus:baz") 11).local_name =
      (BytesEnd.owned (ascii "foo:bus:baz")).local_name :=
  c10_local_name_implementations_agree (BytesStart.owned (ascii "foo:bus:baz") 11)
    (BytesEnd.owned (ascii "foo:bus:baz")) (by decide)
